import Mathlib

/-!
Shallow embedding of the multipart-upload helper
(`src/libs/io/s3api/s3_multipart_ops.py`, class `S3MultiParts`) and of the
background run manager (`src/libs/di/di_run_man.py`), together with proofs
of the specification's claims about them.

Conventions of the embedding:
* the boto3 `s3_client` is an abstract oracle mapping each call (with its
  arguments) to either a response or a `StorageRequestError`;
* byte strings are `List Nat` (one `Nat` per byte); the local filesystem is
  a map from paths to optional file contents;
* Python exceptions are the constructors of `PyError`;
* each coordinator method returns the list of client calls it performed (in
  order) together with its result, so that call counts and call order are
  part of the model.
-/

/-- Failure raised by the storage client (network, auth, service-side
validation); the payload keeps the error identity so that "propagated
unchanged" is expressible. -/

structure StorageRequestError where
  msg : String
deriving DecidableEq, Repr

/-- Opaque response from the storage client.  The only field the code under
verification reads is the `ETag` entry of an `upload_part` response. -/
structure Resp where
  ETag : String
deriving DecidableEq, Repr

/-- Python exceptions that the code in `src/` can raise.  `ioError` is the
`IOError` raised by `upload_parts` on a missing file (in Python 3 `IOError`
is the `OSError` family, of which `FileNotFoundError` is the
file-not-found member); `storage` wraps a client failure travelling
through a coordinator method. -/
inductive PyError where
  | ioError
  | typeError
  | zeroDivisionError
  | storage (e : StorageRequestError)
deriving DecidableEq, Repr

namespace S3MultiParts

/-- One entry of the part list built by `upload_parts`:
`{"PartNumber": i, "ETag": part["ETag"]}`. -/
structure Part where
  PartNumber : Nat
  ETag : String
deriving DecidableEq, Repr

/-- A call to the underlying boto3 `s3_client`, with the arguments the
source passes.  `upload_id` and `part_number` are `Option` because the
source fetches them with `kwargs.get`, which yields `None` when absent. -/
inductive ClientCall where
  | create_multipart_upload (bucket key : String)
  | upload_part (body : List Nat) (bucket key : String)
      (upload_id : Option String) (part_number : Option Nat)
  | list_parts (bucket key upload_id : String)
  | complete_multipart_upload (bucket key upload_id : String) (parts : List Part)
  | list_multipart_uploads (bucket : String)
  | abort_multipart_upload (bucket key upload_id : String)
  | upload_part_copy (bucket key : String)
      (upload_id : Option String) (part_number : Option Nat) (copy_source : String)
deriving DecidableEq, Repr

/-- The storage client: an oracle answering each call with a response or a
`StorageRequestError`. -/
def S3Client : Type := ClientCall → Except StorageRequestError Resp

/-- The local filesystem: path to optional content. -/
def FileSys : Type := String → Option (List Nat)

/-! ### The seven thin coordinator methods

Each one performs exactly one client call and returns the response
(`return response` in the source); the call trace is the first component. -/

/-- `S3MultiParts.create_multipart_upload`. -/
def create_multipart_upload (client : S3Client) (bucket_name obj_name : String) :
    List ClientCall × Except StorageRequestError Resp :=
  let c := ClientCall.create_multipart_upload bucket_name obj_name
  ([c], client c)

/-- `S3MultiParts.upload_part` (with `upload_id`, `part_number` taken from
`kwargs.get`). -/
def upload_part (client : S3Client) (body : List Nat) (bucket_name object_name : String)
    (upload_id : Option String) (part_number : Option Nat) :
    List ClientCall × Except StorageRequestError Resp :=
  let c := ClientCall.upload_part body bucket_name object_name upload_id part_number
  ([c], client c)

/-- `S3MultiParts.list_parts`. -/
def list_parts (client : S3Client) (mpu_id bucket object_name : String) :
    List ClientCall × Except StorageRequestError Resp :=
  let c := ClientCall.list_parts bucket object_name mpu_id
  ([c], client c)

/-- `S3MultiParts.complete_multipart_upload`. -/
def complete_multipart_upload (client : S3Client) (mpu_id : String) (parts : List Part)
    (bucket object_name : String) :
    List ClientCall × Except StorageRequestError Resp :=
  let c := ClientCall.complete_multipart_upload bucket object_name mpu_id parts
  ([c], client c)

/-- `S3MultiParts.list_multipart_uploads`. -/
def list_multipart_uploads (client : S3Client) (bucket : String) :
    List ClientCall × Except StorageRequestError Resp :=
  let c := ClientCall.list_multipart_uploads bucket
  ([c], client c)

/-- `S3MultiParts.abort_multipart_upload`. -/
def abort_multipart_upload (client : S3Client) (bucket object_name upload_id : String) :
    List ClientCall × Except StorageRequestError Resp :=
  let c := ClientCall.abort_multipart_upload bucket object_name upload_id
  ([c], client c)

/-- `S3MultiParts.upload_part_copy`. -/
def upload_part_copy (client : S3Client) (copy_source bucket_name object_name : String)
    (upload_id : Option String) (part_number : Option Nat) :
    List ClientCall × Except StorageRequestError Resp :=
  let c := ClientCall.upload_part_copy bucket_name object_name upload_id part_number copy_source
  ([c], client c)

/-! ### The `upload_parts` driver -/

/-- Modelled from the spec: `cal_percent` lives in
`commons.utils.system_utils`, which is not under `src/`; the spec describes
it as the pure percent-complete function
`percent(uploadedBytes, totalBytes) -> value in [0,100]`, i.e.
`uploadedBytes / totalBytes * 100`, here over the rationals. -/
def cal_percent (done total : Nat) : ℚ := (done : ℚ) / (total : ℚ) * 100

/-- The chunk sequence produced by the read loop of `upload_parts`:
`file_pointer.read(p)` repeatedly, stopping at the first empty read
(`if not data: break`).  In particular `read(0)` returns the empty byte
string at once, so `p = 0` yields no chunks. -/
def readChunks (p : Nat) (content : List Nat) : List (List Nat) :=
  if h : content.take p = [] then []
  else
    content.take p :: readChunks p (content.drop p)
termination_by content.length
decreasing_by
  simp only [List.length_drop]
  rcases p with _ | p
  · simp at h
  · rcases content with _ | ⟨b, rest⟩
    · simp at h
    · simp
      omega

/-- Everything `upload_parts` accumulates while looping: the part list it
returns, the client calls it makes, the `uploaded_bytes` counter and the
progress observations it logs, all in order. -/
structure UploadPartsState where
  parts : List Part
  calls : List ClientCall
  uploaded_bytes : Nat
  progress : List ℚ
deriving DecidableEq, Repr

/-- The `while True` loop of `upload_parts`: read a chunk of
`single_part_size` bytes from the unread remainder `rest`; stop on an empty
read; otherwise call `upload_part` (part number `i`), record
`{"PartNumber": i, "ETag": ...}`, add the chunk length to
`uploaded_bytes`, log progress against `multipart_obj_size * 1048576`, and
continue with `i + 1`.  A client failure propagates out unchanged. -/
def upload_parts_loop (client : S3Client) (mpu_id bucket_name object_name : String)
    (single_part_size multipart_obj_size : Nat)
    (rest : List Nat) (i uploaded_bytes : Nat) :
    Except PyError UploadPartsState :=
  let data := rest.take single_part_size
  if h : data = [] then
    Except.ok ⟨[], [], uploaded_bytes, []⟩
  else
    match upload_part client data bucket_name object_name (some mpu_id) (some i) with
    | (cs, Except.error e) =>
        let _ := cs
        Except.error (PyError.storage e)
    | (cs, Except.ok part) =>
        let ub := uploaded_bytes + data.length
        match upload_parts_loop client mpu_id bucket_name object_name
            single_part_size multipart_obj_size (rest.drop single_part_size) (i + 1) ub with
        | Except.error e => Except.error e
        | Except.ok s =>
            Except.ok ⟨⟨i, part.ETag⟩ :: s.parts,
                       cs ++ s.calls,
                       s.uploaded_bytes,
                       cal_percent ub (multipart_obj_size * 1048576) :: s.progress⟩
termination_by rest.length
decreasing_by
  simp only [List.length_drop]
  rcases single_part_size with _ | p
  · simp [data] at h
  · rcases rest with _ | ⟨b, r⟩
    · simp [data] at h
    · simp
      omega

/-- `S3MultiParts.upload_parts`: raise `IOError` when the path does not
exist (before opening the file or touching the client); otherwise compute
`single_part_size = multipart_obj_size // int(total_parts)` (a Python
`ZeroDivisionError` when `total_parts` is `0`) and run the read loop from
part number `1` with `uploaded_bytes = 0`. -/
def upload_parts (client : S3Client) (fs : FileSys)
    (mpu_id bucket_name object_name multipart_obj_path : String) (total_parts : Nat) :
    Except PyError UploadPartsState :=
  match fs multipart_obj_path with
  | none => Except.error PyError.ioError
  | some content =>
      if total_parts = 0 then Except.error PyError.zeroDivisionError
      else
        let multipart_obj_size := content.length
        let single_part_size := multipart_obj_size / total_parts
        upload_parts_loop client mpu_id bucket_name object_name
          single_part_size multipart_obj_size content 1 0

/-! ### Projections used to state properties of the call trace -/

/-- The byte payload of an `upload_part` client call. -/
def call_body : ClientCall → List Nat
  | ClientCall.upload_part body _ _ _ _ => body
  | _ => []

/-- The part number of an `upload_part` client call. -/
def call_part_number : ClientCall → Option Nat
  | ClientCall.upload_part _ _ _ _ pn => pn
  | _ => none

/-! ### Fixtures: concrete clients, filesystems and run results -/

/-- A storage client that accepts every call, answering a fixed tag. -/
def okETagClient : S3Client := fun _ => Except.ok ⟨"etag-1"⟩

/-- A filesystem on which every path holds the content `c`. -/
def fileAt (c : List Nat) : FileSys := fun _ => some c

/-- A filesystem with no files. -/
def noFile : FileSys := fun _ => none

/-- The exact result of `upload_parts` on a 5-byte file split as
`total_parts = 2` against `okETagClient`. -/
def exSplitState : UploadPartsState :=
  ⟨[⟨1, "etag-1"⟩, ⟨2, "etag-1"⟩, ⟨3, "etag-1"⟩],
   [ClientCall.upload_part [0, 1] "b" "o" (some "m") (some 1),
    ClientCall.upload_part [2, 3] "b" "o" (some "m") (some 2),
    ClientCall.upload_part [4] "b" "o" (some "m") (some 3)],
   5,
   [cal_percent 2 (5 * 1048576), cal_percent 4 (5 * 1048576), cal_percent 5 (5 * 1048576)]⟩

/-- The exact result of `upload_parts` on a 2-byte file split as
`total_parts = 2` against `okETagClient`. -/
def exSumState : UploadPartsState :=
  ⟨[⟨1, "etag-1"⟩, ⟨2, "etag-1"⟩],
   [ClientCall.upload_part [4] "b" "o" (some "m") (some 1),
    ClientCall.upload_part [5] "b" "o" (some "m") (some 2)],
   2,
   [cal_percent 1 (2 * 1048576), cal_percent 2 (2 * 1048576)]⟩

/-- The exact result of `upload_parts` on a 1-byte file with
`total_parts = 1` against `okETagClient`. -/
def exProgState : UploadPartsState :=
  ⟨[⟨1, "etag-1"⟩], [ClientCall.upload_part [9] "b" "o" (some "m") (some 1)],
   1, [cal_percent 1 (1 * 1048576)]⟩

end S3MultiParts

/-! ### The background run manager (`src/libs/di/di_run_man.py`) -/

/-- Failure of the external `DataIntegrityValidator.verify_data_integrity`
step (consumed capability; its internal logic is out of scope). -/
structure IntegrityVerificationError where
  msg : String
deriving DecidableEq, Repr

/-- Observable actions of `stop_io_async`, in the order they happen. -/
inductive RunEvent where
  | join
  | verify_data_integrity
deriving DecidableEq, Repr

/-- `ASyncIO.stop_io_async(di_check=True)`: first `self.bg_thread.join()`
(unconditional, no timeout argument), then, only when `di_check` holds,
`DataIntegrityValidator.verify_data_integrity()`.  The verifier is the
oracle `verify_result`; an exception it raises leaves the method unhandled
(there is no `try` in the source), which the model renders as returning
that `Except` value.  The first component is the ordered event trace. -/
def stop_io_async (verify_result : Except IntegrityVerificationError Unit)
    (di_check : Bool) :
    List RunEvent × Except IntegrityVerificationError Unit :=
  let joined := [RunEvent.join]
  if di_check then
    (joined ++ [RunEvent.verify_data_integrity], verify_result)
  else
    (joined, Except.ok ())

/-- Names of the parameters of `ASyncIO.__init__` after `self`
(`upload_cls`, `users`), none of which has a default. -/
def asyncio_init_params : List String := ["upload_cls", "users"]

/-- Modelled Python call binding for a call that passes `n_positional`
positional arguments and the keyword arguments named `keyword_names` to a
function whose parameters (after `self`) are `params`, none with a
default: Python raises `TypeError` when some parameter is bound neither
positionally nor by keyword. -/
def bind_call (params : List String) (n_positional : Nat) (keyword_names : List String) :
    Except PyError Unit :=
  if (List.range params.length).all
      (fun idx => idx < n_positional || keyword_names.contains (params.getD idx "")) then
    Except.ok ()
  else
    Except.error PyError.typeError

/-- Attribute state a fully constructed `RunDataCheckManager` would have. -/
structure RunDataCheckManagerState where
  uploader : String
  users : String
deriving DecidableEq, Repr

/-- `RunDataCheckManager.__init__(self, users)`: sets
`self.uploader = uploader.Uploader()` and `self.users = users`, then calls
`super(RunDataCheckManager, self).__init__(users=users)` — zero positional
arguments and the single keyword `users` against `ASyncIO.__init__`'s
parameters. -/
def runDataCheckManager_init (users : String) : Except PyError RunDataCheckManagerState :=
  match bind_call asyncio_init_params 0 ["users"] with
  | Except.error e => Except.error e
  | Except.ok _ => Except.ok ⟨"Uploader()", users⟩

namespace S3MultiParts

/-! ### Facts about the chunk sequence -/

theorem readChunks_eq_nil (p : Nat) (c : List Nat) (h : c.take p = []) :
    readChunks p c = [] := by
  rw [readChunks]
  simp [h]

theorem readChunks_eq_cons (p : Nat) (c : List Nat) (h : c.take p ≠ []) :
    readChunks p c = c.take p :: readChunks p (c.drop p) := by
  rw [readChunks]
  simp [h]

theorem readChunks_zero (c : List Nat) : readChunks 0 c = [] :=
  readChunks_eq_nil 0 c (by simp)

theorem readChunks_join (p : Nat) (c : List Nat) (hp : 1 ≤ p) :
    (readChunks p c).flatten = c := by
  generalize hn : c.length = n
  induction n using Nat.strong_induction_on generalizing c with
  | _ n ih =>
    rcases c with _ | ⟨b, rest⟩
    · simp [readChunks_eq_nil p [] (by simp)]
    · rw [readChunks_eq_cons p (b :: rest) (by rcases p with _ | q <;> simp_all)]
      have hlt : ((b :: rest).drop p).length < n := by
        subst hn
        simp only [List.length_drop]
        simp only [List.length_cons]
        omega
      rw [List.flatten_cons, ih _ hlt _ rfl, List.take_append_drop]

theorem readChunks_sum_length (p : Nat) (c : List Nat) (hp : 1 ≤ p) :
    ((readChunks p c).map List.length).sum = c.length := by
  have := congrArg List.length (readChunks_join p c hp)
  rwa [List.length_flatten] at this

theorem readChunks_length_eq_nil_iff (p : Nat) (c : List Nat) :
    readChunks p c = [] ↔ p = 0 ∨ c = [] := by
  constructor
  · intro h
    by_contra hcon
    push_neg at hcon
    rw [readChunks_eq_cons p c (by rcases hcon with ⟨h1, h2⟩; rcases p with _ | q <;> rcases c with _ | ⟨x, xs⟩ <;> simp_all)] at h
    exact List.cons_ne_nil _ _ h
  · intro h
    rcases h with h | h
    · subst h; exact readChunks_zero c
    · subst h; exact readChunks_eq_nil p [] (by simp)

theorem readChunks_count (p : Nat) (c : List Nat) (hp : 1 ≤ p) :
    (readChunks p c).length = (c.length + p - 1) / p := by
  generalize hn : c.length = n
  induction n using Nat.strong_induction_on generalizing c with
  | _ n ih =>
    rcases c with _ | ⟨b, rest⟩
    · rw [readChunks_eq_nil p [] (by simp)]
      have : n = 0 := by simpa using hn.symm
      subst this
      simp only [Nat.zero_add]
      exact (Nat.div_eq_of_lt (by omega)).symm
    · have hnpos : 1 ≤ n := by
        subst hn
        simp
      rw [readChunks_eq_cons p (b :: rest) (by rcases p with _ | q <;> simp_all)]
      have hdrop : ((b :: rest).drop p).length = n - p := by
        subst hn
        simp
      have hlt : ((b :: rest).drop p).length < n := by omega
      rw [List.length_cons, ih _ hlt _ rfl, hdrop]
      rcases le_or_lt n p with hle | hgt
      · have h1 : n - p = 0 := by omega
        have h2 : (0 + p - 1) / p = 0 := Nat.div_eq_of_lt (by omega)
        have h3 : (n + p - 1) / p = 1 := by
          apply Nat.div_eq_of_lt_le
          · omega
          · omega
        rw [h1, h2, h3]
      · have h4 : n + p - 1 = (n - p + p - 1) + p := by omega
        rw [h4, Nat.add_div_right _ (by omega : 0 < p)]

theorem readChunks_map_length (p : Nat) (c : List Nat) (hp : 1 ≤ p) (hc : c ≠ []) :
    (readChunks p c).map List.length =
      List.replicate ((readChunks p c).length - 1) p ++
        [c.length - ((readChunks p c).length - 1) * p] := by
  generalize hn : c.length = n
  induction n using Nat.strong_induction_on generalizing c with
  | _ n ih =>
    have htake : c.take p ≠ [] := by
      rcases p with _ | q <;> rcases c with _ | ⟨x, xs⟩ <;> simp_all
    rw [readChunks_eq_cons p c htake]
    rcases eq_or_ne (readChunks p (c.drop p)) [] with hnil | hne
    · have hdrop : c.drop p = [] := by
        rcases (readChunks_length_eq_nil_iff p (c.drop p)).mp hnil with h | h
        · omega
        · exact h
      have hnp : n ≤ p := by
        have h0 : c.length - p = 0 := by
          rw [← List.length_drop, hdrop]
          rfl
        omega
      have htlen : (c.take p).length = n := by
        simp only [List.length_take]
        omega
      simp [hnil, htlen]
    · have hdropne : c.drop p ≠ [] := by
        intro h
        exact hne ((readChunks_length_eq_nil_iff p (c.drop p)).mpr (Or.inr h))
      have hgt : p < n := by
        by_contra hle
        push_neg at hle
        exact hdropne (List.drop_eq_nil_of_le (by omega))
      have hdlen : (c.drop p).length = n - p := by
        simp only [List.length_drop]
        omega
      have hmap := ih (n - p) (by omega) (c.drop p) hdropne hdlen
      have hL : 1 ≤ (readChunks p (c.drop p)).length := List.length_pos.mpr hne
      have htlen : (c.take p).length = p := by
        simp only [List.length_take]
        omega
      rw [List.map_cons, hmap, htlen]
      have hcons : (c.take p :: readChunks p (c.drop p)).length - 1 =
          (readChunks p (c.drop p)).length := by
        simp
      rw [hcons]
      have hrep : List.replicate (readChunks p (c.drop p)).length p =
          p :: List.replicate ((readChunks p (c.drop p)).length - 1) p := by
        have h1 : (readChunks p (c.drop p)).length =
            ((readChunks p (c.drop p)).length - 1) + 1 := by omega
        rw [h1]
        rfl
      have h2 : ((readChunks p (c.drop p)).length - 1) * p + p =
          (readChunks p (c.drop p)).length * p := by
        have h3 : (readChunks p (c.drop p)).length - 1 + 1 =
            (readChunks p (c.drop p)).length := by omega
        calc ((readChunks p (c.drop p)).length - 1) * p + p
            = (((readChunks p (c.drop p)).length - 1) + 1) * p := by ring
          _ = (readChunks p (c.drop p)).length * p := by rw [h3]
      have h4 : n - p - ((readChunks p (c.drop p)).length - 1) * p =
          n - (readChunks p (c.drop p)).length * p := by omega
      rw [hrep, h4]
      simp [List.cons_append]

theorem upload_parts_loop_ok (client : S3Client) (m b o : String) (p sz : Nat)
    (rest : List Nat) (i ub : Nat) (s : UploadPartsState)
    (hok : upload_parts_loop client m b o p sz rest i ub = Except.ok s) :
    s.calls.map call_body = readChunks p rest ∧
    s.calls.map call_part_number = (List.range' i (readChunks p rest).length).map some ∧
    s.parts.map Part.PartNumber = List.range' i (readChunks p rest).length ∧
    s.parts.length = (readChunks p rest).length ∧
    s.uploaded_bytes = ub + ((readChunks p rest).map List.length).sum ∧
    s.progress.length = (readChunks p rest).length ∧
    s.progress.getLast? = (if readChunks p rest = [] then none
      else some (cal_percent s.uploaded_bytes (sz * 1048576))) := by
  generalize hn : rest.length = n
  induction n using Nat.strong_induction_on generalizing rest i ub s with
  | _ n ih =>
    rw [upload_parts_loop] at hok
    by_cases hdata : rest.take p = []
    · rw [dif_pos hdata] at hok
      have hs : s = ⟨[], [], ub, []⟩ := by
        cases hok
        rfl
      subst hs
      rw [readChunks_eq_nil p rest hdata]
      simp
    · rw [dif_neg hdata] at hok
      simp only [upload_part] at hok
      rcases hcl : client (ClientCall.upload_part (rest.take p) b o (some m) (some i)) with e | part
      · rw [hcl] at hok
        cases hok
      · rw [hcl] at hok
        rcases hrec : upload_parts_loop client m b o p sz (rest.drop p) (i + 1)
            (ub + (rest.take p).length) with e2 | s2
        · rw [hrec] at hok
          cases hok
        · rw [hrec] at hok
          have hs : s = ⟨⟨i, part.ETag⟩ :: s2.parts,
              [ClientCall.upload_part (rest.take p) b o (some m) (some i)] ++ s2.calls,
              s2.uploaded_bytes,
              cal_percent (ub + (rest.take p).length) (sz * 1048576) :: s2.progress⟩ := by
            cases hok
            rfl
          subst hs
          have hlt : (rest.drop p).length < n := by
            subst hn
            rcases p with _ | q
            · simp at hdata
            · rcases rest with _ | ⟨x, xs⟩
              · simp at hdata
              · simp
                omega
          obtain ⟨h1, h2, h3, h4, h5, h6, h7⟩ := ih _ hlt _ _ _ _ hrec rfl
          rw [readChunks_eq_cons p rest hdata]
          refine ⟨?_, ?_, ?_, ?_, ?_, ?_, ?_⟩
          · simp only [List.cons_append, List.nil_append, List.map_cons, h1]
            rfl
          · simp only [List.cons_append, List.nil_append, List.map_cons, h2,
              List.length_cons, List.range'_succ, List.map_cons]
            rfl
          · simp only [List.map_cons, h3, List.length_cons, List.range'_succ]
          · simp only [List.length_cons, h4]
          · simp only [h5, List.map_cons, List.sum_cons]
            omega
          · simp only [List.length_cons, h6]
          · rcases hchunks : readChunks p (rest.drop p) with _ | ⟨ch, chs⟩
            · have hprognil : s2.progress = [] := by
                rw [hchunks] at h6
                exact List.length_eq_zero.mp h6
              have hub2 : s2.uploaded_bytes = ub + (rest.take p).length := by
                rw [hchunks] at h5
                simpa using h5
              simp only [hprognil, hchunks]
              simp [hub2]
            · have hprogne : s2.progress ≠ [] := by
                intro hcon
                rw [hchunks, hcon] at h6
                simp at h6
              rw [hchunks] at h7
              simp only [if_neg (List.cons_ne_nil ch chs)] at h7
              obtain ⟨q, qs, hqs⟩ := List.exists_cons_of_ne_nil hprogne
              rw [hqs] at h7 ⊢
              rw [List.getLast?_cons_cons, h7]
              simp

/-- Unfolding helper: a successful `upload_parts` run on an existing file
is a successful run of its read loop from part number 1. -/
theorem upload_parts_ok_elim (client : S3Client) (fs : FileSys)
    (m b o f : String) (N : Nat) (content : List Nat) (s : UploadPartsState)
    (hfs : fs f = some content) (hN : 1 ≤ N)
    (hok : upload_parts client fs m b o f N = Except.ok s) :
    upload_parts_loop client m b o (content.length / N) content.length content 1 0 =
      Except.ok s := by
  have hN0 : ¬ N = 0 := by omega
  rw [upload_parts, hfs] at hok
  simp only [] at hok
  rw [if_neg hN0] at hok
  exact hok

/-! ### Claims about `upload_parts` and the coordinator methods -/

/-- Claim C1, counterexample: file of 5 bytes, `total_parts = 2`.  The
claim predicts exactly `N = 2` parts (since `5 // 2 = 2 ≥ 1`) with the
last of size `5 - (2-1) * (5 // 2) = 3`; the code produces 3 parts of
sizes `[2, 2, 1]`. -/
theorem upload_parts_equal_split_counterexample :
    (upload_parts okETagClient (fileAt [0, 1, 2, 3, 4]) "m" "b" "o" "f" 2).map
        (fun s => s.calls.map (fun c => (call_body c).length)) = Except.ok [2, 2, 1] ∧
    ([0, 1, 2, 3, 4] : List Nat).length / 2 = 2 ∧
    ([0, 1, 2, 3, 4] : List Nat).length -
      (2 - 1) * (([0, 1, 2, 3, 4] : List Nat).length / 2) = 3 ∧
    ([2, 2, 1] : List Nat).getLast? = some 1 ∧ (1 : Nat) ≠ 3 ∧
    ([2, 2, 1] : List Nat).length ≠ 2 := by
  refine ⟨?_, by norm_num, by norm_num, by simp, by norm_num, by simp⟩
  simp [upload_parts, upload_parts_loop, upload_part, fileAt, okETagClient, call_body,
    Except.map]

/-- Claim C1, amended: with chunk size `p = S // N ≥ 1`, every uploaded
chunk but the last has length `p`; the last has length `S - (M-1) * p`
where `M` is the number of parts actually produced, namely
`⌈S / p⌉ = (S + p - 1) // p` — not necessarily `N`; the part count equals
`N` exactly when `N` divides `S`. -/
theorem upload_parts_part_sizes (client : S3Client) (fs : FileSys)
    (m b o f : String) (N : Nat) (content : List Nat) (s : UploadPartsState)
    (hfs : fs f = some content) (hN : 1 ≤ N) (hp : 1 ≤ content.length / N)
    (hok : upload_parts client fs m b o f N = Except.ok s) :
    s.calls.map (fun c => (call_body c).length) =
      List.replicate (s.calls.length - 1) (content.length / N) ++
        [content.length - (s.calls.length - 1) * (content.length / N)] ∧
    s.calls.length =
      (content.length + content.length / N - 1) / (content.length / N) ∧
    (s.calls.length = N ↔ N ∣ content.length) := by
  have hloop := upload_parts_ok_elim client fs m b o f N content s hfs hN hok
  obtain ⟨h1, h2, h3, h4, h5, h6, h7⟩ := upload_parts_loop_ok client m b o
    (content.length / N) content.length content 1 0 s hloop
  have hSN : N ≤ content.length := (Nat.one_le_div_iff (by omega)).mp hp
  have hne : content ≠ [] := by
    intro hcon
    rw [hcon] at hSN
    simp at hSN
    omega
  have hmaplen : s.calls.map (fun c => (call_body c).length) =
      ((readChunks (content.length / N) content).map List.length) := by
    rw [← h1, List.map_map]
    rfl
  have hlen : s.calls.length = (readChunks (content.length / N) content).length := by
    have := congrArg List.length h1
    simpa using this
  have hcount := readChunks_count (content.length / N) content hp
  refine ⟨?_, ?_, ?_⟩
  · rw [hmaplen, hlen, readChunks_map_length (content.length / N) content hp hne]
  · rw [hlen, hcount]
  · rw [hlen, hcount]
    have hmod := Nat.div_add_mod content.length N
    have hp0 : 0 < content.length / N := hp
    have hdecomp : content.length + content.length / N - 1 =
        (content.length % N + content.length / N - 1) + N * (content.length / N) := by
      omega
    rw [hdecomp, Nat.add_mul_div_right _ _ hp0]
    rcases Nat.eq_zero_or_pos (content.length % N) with hr | hr
    · have hz : (content.length % N + content.length / N - 1) / (content.length / N) = 0 := by
        apply Nat.div_eq_of_lt
        omega
      rw [hz]
      constructor
      · intro _
        exact Nat.dvd_of_mod_eq_zero hr
      · intro _
        omega
    · have hge : 1 ≤ (content.length % N + content.length / N - 1) /
          (content.length / N) := by
        rw [Nat.one_le_div_iff hp0]
        omega
      constructor
      · intro hcon
        omega
      · intro hdvd
        have h0 : content.length % N = 0 := Nat.mod_eq_zero_of_dvd hdvd
        omega

/-- Witness for claim C1 at the 5-byte file with `total_parts = 2`. -/
theorem upload_parts_part_sizes_witness :
    (fileAt [0, 1, 2, 3, 4]) "f" = some [0, 1, 2, 3, 4] ∧ (1 : Nat) ≤ 2 ∧
    1 ≤ ([0, 1, 2, 3, 4] : List Nat).length / 2 ∧
    (exSplitState.calls.length = 2 ↔ 2 ∣ ([0, 1, 2, 3, 4] : List Nat).length) ∧
    exSplitState.calls.length = 3 := by
  have hok : upload_parts okETagClient (fileAt [0, 1, 2, 3, 4]) "m" "b" "o" "f" 2 =
      Except.ok exSplitState := by
    simp [exSplitState, upload_parts, upload_parts_loop, upload_part, fileAt,
      okETagClient, cal_percent]
  have h := upload_parts_part_sizes okETagClient (fileAt [0, 1, 2, 3, 4]) "m" "b" "o" "f" 2
    [0, 1, 2, 3, 4] exSplitState rfl (by omega) (by norm_num) hok
  exact ⟨rfl, by omega, by norm_num, h.2.2, by simp [exSplitState]⟩

/-- Claim C2, counterexample: a 1-byte file with `total_parts = 2` gives
chunk size `0`, so nothing at all is read or uploaded: the byte sum is
`0`, not the file size `1`. -/
theorem upload_parts_sum_counterexample :
    (upload_parts okETagClient (fileAt [7]) "m" "b" "o" "f" 2).map
        (fun s => (s.uploaded_bytes, s.calls)) = Except.ok (0, []) ∧
    ([7] : List Nat).length = 1 ∧ (0 : Nat) ≠ 1 := by
  refine ⟨?_, rfl, by omega⟩
  simp [upload_parts, upload_parts_loop, upload_part, fileAt, okETagClient, Except.map]

/-- Claim C2, amended: the bytes uploaded sum to the full file size
whenever the chunk size is non-zero — that is, when `N ≤ S` — and also
for the empty file; only the degenerate range `0 < S < N` uploads
nothing. -/
theorem upload_parts_sum_bytes (client : S3Client) (fs : FileSys)
    (m b o f : String) (N : Nat) (content : List Nat) (s : UploadPartsState)
    (hfs : fs f = some content) (hN : 1 ≤ N)
    (hS : N ≤ content.length ∨ content.length = 0)
    (hok : upload_parts client fs m b o f N = Except.ok s) :
    s.uploaded_bytes = content.length ∧
    (s.calls.map (fun c => (call_body c).length)).sum = content.length := by
  have hloop := upload_parts_ok_elim client fs m b o f N content s hfs hN hok
  obtain ⟨h1, h2, h3, h4, h5, h6, h7⟩ := upload_parts_loop_ok client m b o
    (content.length / N) content.length content 1 0 s hloop
  have hmaplen : s.calls.map (fun c => (call_body c).length) =
      ((readChunks (content.length / N) content).map List.length) := by
    rw [← h1, List.map_map]
    rfl
  have hsum : ((readChunks (content.length / N) content).map List.length).sum =
      content.length := by
    rcases hS with hS | hS
    · exact readChunks_sum_length _ content ((Nat.one_le_div_iff (by omega)).mpr hS)
    · have : content = [] := List.length_eq_zero.mp hS
      subst this
      simp [readChunks_eq_nil _ [] (by simp)]
  constructor
  · rw [h5, hsum]
    omega
  · rw [hmaplen, hsum]

/-- Witness for claim C2 at a 2-byte file with `total_parts = 2`. -/
theorem upload_parts_sum_bytes_witness :
    (fileAt [4, 5]) "f" = some [4, 5] ∧ (1 : Nat) ≤ 2 ∧
    (2 ≤ ([4, 5] : List Nat).length ∨ ([4, 5] : List Nat).length = 0) ∧
    exSumState.uploaded_bytes = ([4, 5] : List Nat).length := by
  have hok : upload_parts okETagClient (fileAt [4, 5]) "m" "b" "o" "f" 2 =
      Except.ok exSumState := by
    simp [exSumState, upload_parts, upload_parts_loop, upload_part, fileAt,
      okETagClient, cal_percent]
  have h := upload_parts_sum_bytes okETagClient (fileAt [4, 5]) "m" "b" "o" "f" 2
    [4, 5] exSumState rfl (by omega) (Or.inl (by norm_num)) hok
  exact ⟨rfl, by omega, Or.inl (by norm_num), h.1⟩

/-- Claim C3: the `PartNumber`s of the returned part list are exactly
`1, 2, ..., len` — ascending from 1 with no gaps — and the client calls
carry the same part numbers in the same order, one call per part. -/
theorem upload_parts_part_numbers (client : S3Client) (fs : FileSys)
    (m b o f : String) (N : Nat) (content : List Nat) (s : UploadPartsState)
    (hfs : fs f = some content) (hN : 1 ≤ N)
    (hok : upload_parts client fs m b o f N = Except.ok s) :
    s.parts.map Part.PartNumber = List.range' 1 s.parts.length ∧
    s.calls.map call_part_number = (List.range' 1 s.parts.length).map some ∧
    s.calls.length = s.parts.length := by
  have hN0 : ¬ N = 0 := by omega
  rw [upload_parts, hfs] at hok
  simp only [] at hok
  rw [if_neg hN0] at hok
  obtain ⟨h1, h2, h3, h4, h5, h6, h7⟩ := upload_parts_loop_ok client m b o
    (content.length / N) content.length content 1 0 s hok
  have hcallslen : s.calls.length = (readChunks (content.length / N) content).length := by
    have := congrArg List.length h1
    simpa using this
  refine ⟨?_, ?_, ?_⟩
  · rw [h3, h4]
  · rw [h2, h4]
  · rw [hcallslen, h4]

/-- Witness for claim C3 at a 3-byte file with `total_parts = 3`. -/
theorem upload_parts_part_numbers_witness :
    (fileAt [0, 1, 2]) "f" = some [0, 1, 2] ∧ 1 ≤ 3 ∧
    (upload_parts okETagClient (fileAt [0, 1, 2]) "m" "b" "o" "f" 3 =
      Except.ok ⟨[⟨1, "etag-1"⟩, ⟨2, "etag-1"⟩, ⟨3, "etag-1"⟩],
        [ClientCall.upload_part [0] "b" "o" (some "m") (some 1),
         ClientCall.upload_part [1] "b" "o" (some "m") (some 2),
         ClientCall.upload_part [2] "b" "o" (some "m") (some 3)],
        3,
        [cal_percent 1 (3 * 1048576), cal_percent 2 (3 * 1048576),
         cal_percent 3 (3 * 1048576)]⟩) ∧
    ([⟨1, "etag-1"⟩, ⟨2, "etag-1"⟩, ⟨3, "etag-1"⟩] : List Part).map Part.PartNumber =
      List.range' 1 3 := by
  have hok : upload_parts okETagClient (fileAt [0, 1, 2]) "m" "b" "o" "f" 3 =
      Except.ok ⟨[⟨1, "etag-1"⟩, ⟨2, "etag-1"⟩, ⟨3, "etag-1"⟩],
        [ClientCall.upload_part [0] "b" "o" (some "m") (some 1),
         ClientCall.upload_part [1] "b" "o" (some "m") (some 2),
         ClientCall.upload_part [2] "b" "o" (some "m") (some 3)],
        3,
        [cal_percent 1 (3 * 1048576), cal_percent 2 (3 * 1048576),
         cal_percent 3 (3 * 1048576)]⟩ := by
    simp [upload_parts, upload_parts_loop, upload_part, fileAt, okETagClient, cal_percent]
  have h := upload_parts_part_numbers okETagClient (fileAt [0, 1, 2]) "m" "b" "o" "f" 3
    [0, 1, 2] _ rfl (by omega) hok
  exact ⟨rfl, by omega, hok, by simpa using h.1⟩

/-- Claim C4: when the file is non-empty but smaller than `total_parts`,
the chunk size is `0`, `read(0)` is empty at once, and the function
returns an empty part list having made no client call. -/
theorem upload_parts_zero_chunk_empty (client : S3Client) (fs : FileSys)
    (m b o f : String) (N : Nat) (content : List Nat)
    (hfs : fs f = some content) (hne : content ≠ []) (hlt : content.length < N) :
    upload_parts client fs m b o f N = Except.ok ⟨[], [], 0, []⟩ := by
  have hN0 : ¬ N = 0 := by
    have : 1 ≤ content.length := List.length_pos.mpr hne
    omega
  rw [upload_parts, hfs]
  simp only []
  rw [if_neg hN0]
  have hp : content.length / N = 0 := Nat.div_eq_of_lt hlt
  rw [hp, upload_parts_loop]
  simp

/-- Witness for claim C4 at a 1-byte file with `total_parts = 3`. -/
theorem upload_parts_zero_chunk_empty_witness :
    (fileAt [5]) "f" = some [5] ∧ ([5] : List Nat) ≠ [] ∧ ([5] : List Nat).length < 3 ∧
    upload_parts okETagClient (fileAt [5]) "m" "b" "o" "f" 3 = Except.ok ⟨[], [], 0, []⟩ :=
  ⟨rfl, by simp, by simp,
    upload_parts_zero_chunk_empty okETagClient (fileAt [5]) "m" "b" "o" "f" 3 [5]
      rfl (by simp) (by simp)⟩

/-- Claim C5: a missing `multipart_obj_path` makes `upload_parts` raise
`IOError` before anything else: the result is that error for every
storage client, so no client call (and no part upload) can have taken
place. -/
theorem upload_parts_missing_file (fs : FileSys) (m b o f : String) (N : Nat)
    (hfs : fs f = none) :
    ∀ client : S3Client, upload_parts client fs m b o f N = Except.error PyError.ioError := by
  intro client
  rw [upload_parts, hfs]

/-- Witness for claim C5 on the empty filesystem. -/
theorem upload_parts_missing_file_witness :
    noFile "f" = none ∧
    upload_parts okETagClient noFile "m" "b" "o" "f" 4 = Except.error PyError.ioError :=
  ⟨rfl, upload_parts_missing_file noFile "m" "b" "o" "f" 4 rfl okETagClient⟩

/-- Claim C6: when `total_parts` exceeds the number of chunks the file
can produce at chunk size `S // N`, the loop stops at end-of-file with no
error: the result is `Except.ok`, and its part list matches the chunks
actually read one-for-one (fewer parts than requested). -/
theorem upload_parts_short_file_tolerated (client : S3Client) (fs : FileSys)
    (m b o f : String) (N : Nat) (content : List Nat)
    (hfs : fs f = some content) (hN : 1 ≤ N)
    (hgt : (readChunks (content.length / N) content).length < N) :
    ∃ s, upload_parts client fs m b o f N = Except.ok s ∧
      s.calls.map call_body = readChunks (content.length / N) content ∧
      s.parts.length = (readChunks (content.length / N) content).length ∧
      s.parts.length < N := by
  have hp0 : content.length / N = 0 := by
    by_contra hcon
    have hp : 1 ≤ content.length / N := Nat.pos_of_ne_zero hcon
    have hcount := readChunks_count (content.length / N) content hp
    have hmul : content.length / N * N ≤ content.length := Nat.div_mul_le_self _ _
    have hge : N ≤ (content.length + content.length / N - 1) / (content.length / N) := by
      rw [Nat.le_div_iff_mul_le hp]
      calc N * (content.length / N) = content.length / N * N := Nat.mul_comm _ _
        _ ≤ content.length := hmul
        _ ≤ content.length + content.length / N - 1 := by omega
    rw [← hcount] at hge
    omega
  have hchunks : readChunks (content.length / N) content = [] := by
    rw [hp0]
    exact readChunks_zero content
  refine ⟨⟨[], [], 0, []⟩, ?_, by simp [hchunks], by simp [hchunks], by simpa using hN⟩
  rw [upload_parts, hfs]
  simp only []
  rw [if_neg (by omega : ¬ N = 0), hp0, upload_parts_loop]
  simp

/-- Witness for claim C6 at a 2-byte file with `total_parts = 7`. -/
theorem upload_parts_short_file_tolerated_witness :
    (fileAt [5, 6]) "f" = some [5, 6] ∧ (1 : Nat) ≤ 7 ∧
    (readChunks (([5, 6] : List Nat).length / 7) [5, 6]).length < 7 ∧
    ∃ s, upload_parts okETagClient (fileAt [5, 6]) "m" "b" "o" "f" 7 = Except.ok s ∧
      s.calls.map call_body = readChunks (([5, 6] : List Nat).length / 7) [5, 6] ∧
      s.parts.length = (readChunks (([5, 6] : List Nat).length / 7) [5, 6]).length ∧
      s.parts.length < 7 := by
  have hlt : (readChunks (([5, 6] : List Nat).length / 7) [5, 6]).length < 7 := by
    have : ([5, 6] : List Nat).length / 7 = 0 := by norm_num
    rw [this, readChunks_zero]
    norm_num
  exact ⟨rfl, by omega, hlt,
    upload_parts_short_file_tolerated okETagClient (fileAt [5, 6]) "m" "b" "o" "f" 7
      [5, 6] rfl (by omega) hlt⟩

/-- Claim C7: each of the seven coordinator methods issues exactly one
client call and returns the client answer unchanged: an `Except.error e`
from the client is the method result (no catch, no retry), and an
`Except.ok r` is returned as-is. -/
theorem coordinator_methods_single_call_passthrough (client : S3Client)
    (body : List Nat) (bucket key mpu copy_src : String)
    (uid : Option String) (pn : Option Nat) (parts : List Part) :
    create_multipart_upload client bucket key =
      ([ClientCall.create_multipart_upload bucket key],
        client (ClientCall.create_multipart_upload bucket key)) ∧
    upload_part client body bucket key uid pn =
      ([ClientCall.upload_part body bucket key uid pn],
        client (ClientCall.upload_part body bucket key uid pn)) ∧
    upload_part_copy client copy_src bucket key uid pn =
      ([ClientCall.upload_part_copy bucket key uid pn copy_src],
        client (ClientCall.upload_part_copy bucket key uid pn copy_src)) ∧
    list_parts client mpu bucket key =
      ([ClientCall.list_parts bucket key mpu], client (ClientCall.list_parts bucket key mpu)) ∧
    complete_multipart_upload client mpu parts bucket key =
      ([ClientCall.complete_multipart_upload bucket key mpu parts],
        client (ClientCall.complete_multipart_upload bucket key mpu parts)) ∧
    list_multipart_uploads client bucket =
      ([ClientCall.list_multipart_uploads bucket],
        client (ClientCall.list_multipart_uploads bucket)) ∧
    abort_multipart_upload client bucket key mpu =
      ([ClientCall.abort_multipart_upload bucket key mpu],
        client (ClientCall.abort_multipart_upload bucket key mpu)) :=
  ⟨rfl, rfl, rfl, rfl, rfl, rfl, rfl⟩

/-- Claim C10: each progress observation divides by
`multipart_obj_size * 1048576` instead of the file size, so the
observation logged with the final part — by which point every byte has
been uploaded — reads `100 / 1048576` percent, not `100` percent. -/
theorem upload_parts_progress_scaled (client : S3Client) (fs : FileSys)
    (m b o f : String) (N : Nat) (content : List Nat) (s : UploadPartsState)
    (hfs : fs f = some content) (hN : 1 ≤ N) (hNS : N ≤ content.length)
    (hok : upload_parts client fs m b o f N = Except.ok s) :
    s.progress.getLast? =
      some (cal_percent content.length (content.length * 1048576)) ∧
    cal_percent content.length (content.length * 1048576) = 100 / 1048576 ∧
    ((100 : ℚ) / 1048576) ≠ 100 := by
  have hloop := upload_parts_ok_elim client fs m b o f N content s hfs hN hok
  obtain ⟨h1, h2, h3, h4, h5, h6, h7⟩ := upload_parts_loop_ok client m b o
    (content.length / N) content.length content 1 0 s hloop
  have hp : 1 ≤ content.length / N := (Nat.one_le_div_iff (by omega)).mpr hNS
  have hne : content ≠ [] := by
    intro hcon
    rw [hcon] at hNS
    simp at hNS
    omega
  have hchunksne : readChunks (content.length / N) content ≠ [] := by
    intro hcon
    rcases (readChunks_length_eq_nil_iff _ content).mp hcon with h | h
    · omega
    · exact hne h
  have hub : s.uploaded_bytes = content.length := by
    rw [h5, readChunks_sum_length _ content hp]
    omega
  have hcal : cal_percent content.length (content.length * 1048576) =
      100 / 1048576 := by
    have hS0 : (content.length : ℚ) ≠ 0 := Nat.cast_ne_zero.mpr (by omega)
    rw [cal_percent]
    push_cast
    field_simp
    ring
  refine ⟨?_, hcal, by norm_num⟩
  rw [h7, if_neg hchunksne, hub]

/-- Witness for claim C10 at a 1-byte file with `total_parts = 1`. -/
theorem upload_parts_progress_scaled_witness :
    (fileAt [9]) "f" = some [9] ∧ (1 : Nat) ≤ 1 ∧ 1 ≤ ([9] : List Nat).length ∧
    exProgState.progress.getLast? =
      some (cal_percent ([9] : List Nat).length (([9] : List Nat).length * 1048576)) ∧
    cal_percent ([9] : List Nat).length (([9] : List Nat).length * 1048576) =
      100 / 1048576 ∧
    ((100 : ℚ) / 1048576) ≠ 100 := by
  have hok : upload_parts okETagClient (fileAt [9]) "m" "b" "o" "f" 1 =
      Except.ok exProgState := by
    simp [exProgState, upload_parts, upload_parts_loop, upload_part, fileAt,
      okETagClient, cal_percent]
  have h := upload_parts_progress_scaled okETagClient (fileAt [9]) "m" "b" "o" "f" 1
    [9] exProgState rfl (by omega) (by norm_num) hok
  exact ⟨rfl, by omega, by norm_num, h.1, h.2.1, h.2.2⟩

end S3MultiParts

/-! ### Claims about the background run manager -/

/-- Claim C8: `stop_io_async` joins the worker thread first,
unconditionally (the join is the head of the event trace for either flag
value); the integrity-verification step runs after the join and only when
`di_check` is true, and its outcome — failure included — is the method
result. -/
theorem stop_io_async_join_then_verify (vr : Except IntegrityVerificationError Unit) :
    stop_io_async vr true = ([RunEvent.join, RunEvent.verify_data_integrity], vr) ∧
    stop_io_async vr false = ([RunEvent.join], Except.ok ()) ∧
    (stop_io_async vr true).1.head? = some RunEvent.join ∧
    (stop_io_async vr false).1.head? = some RunEvent.join :=
  ⟨rfl, rfl, rfl, rfl⟩

/-- Claim C9: `RunDataCheckManager.__init__` always raises `TypeError`,
because `super().__init__(users=users)` leaves the required parameter
`upload_cls` of `ASyncIO.__init__` unbound. -/
theorem runDataCheckManager_init_type_error (users : String) :
    runDataCheckManager_init users = Except.error PyError.typeError :=
  rfl
